import Mathlib

/-!
Shallow embedding of the blend-ybx-pool-indexer core (src/src/lib.rs): the
`on_close` ingest pipeline (contract filter, symbol dispatch, row recording)
and the `retrieve` query entry point, together with the data model
(`Action`, the `actions` table rows).

Host-provided decode oracles (`from_scval` for symbols, addresses and
`(i128, i128)` tuples, and `address_to_alloc_string`) are modelled as total
functions on an explicit `ScVal` sum type returning `Option`; a decode
mismatch or an out-of-bounds topic index in the Rust code is a panic, which
we model as a failed (`false`) invocation that keeps the rows already
appended. Machine integers are `Int`/`Nat` with explicit wrap-around where
the source truncates (`amount as i64`).
-/

set_option autoImplicit false

namespace BlendYbx

/-- Opaque tagged chain values, restricted to the shapes this program
decodes: symbols, addresses (already in their canonical textual strkey
form), signed 128-bit integers and vectors. `other` stands for every
remaining tag of the chain's value grammar. -/
inductive ScVal where
  | symbol : String → ScVal
  | address : String → ScVal
  | i128 : Int → ScVal
  | vec : List ScVal → ScVal
  | other : ScVal

/-- Mirrors `PrettyContractEvent`: the emitting contract's identity (in
strkey form), the ordered topic list and the data payload. -/
structure PrettyContractEvent where
  contract : String
  topics : List ScVal
  data : ScVal

/-- Mirrors `enum Action { Borrow, Collateral }` with `#[repr(u32)]`. -/
inductive Action where
  | Borrow : Action
  | Collateral : Action

deriving instance DecidableEq for Action

/-- Mirrors `action as u32`: the numeric tag of the `#[repr(u32)]` enum,
`Borrow = 0`, `Collateral = 1`. -/
def Action.tag : Action → Nat
  | .Borrow => 0
  | .Collateral => 1

/-- Mirrors the `Actions` row struct persisted to the `actions` table. -/
structure ActionsRow where
  action : Nat
  timestamp : Nat
  ledger : Nat
  asset : String
  source : String
  amount : Int

deriving instance DecidableEq for ActionsRow

/-- Mirrors the Rust cast `amount as i64` on an `i128`: keep the low 64
bits and reinterpret them as a signed 64-bit value (two's complement). -/
def wrapI64 (n : Int) : Int :=
  (n + 2 ^ 63) % 2 ^ 64 - 2 ^ 63

/-- Mirrors `env.from_scval::<Symbol>`: succeeds exactly on symbol values;
any other tag is a decode mismatch (a panic in the source). -/
def decodeSymbol : ScVal → Option String
  | .symbol s => some s
  | _ => none

/-- Mirrors `address_to_alloc_string(env, env.from_scval(&v))`: succeeds
exactly on address values, yielding the canonical textual address. -/
def decodeAddress : ScVal → Option String
  | .address a => some a
  | _ => none

/-- Mirrors `env.from_scval::<(i128, i128)>(&event.data)`: succeeds exactly
on a two-element vector of i128 values. -/
def decodeI128Pair : ScVal → Option (Int × Int)
  | .vec [.i128 a, .i128 b] => some (a, b)
  | _ => none

/-- Mirrors `Actions::new`: decodes the asset and source addresses and
builds the row, truncating the i128 `amount` to i64 (`amount as i64`).
`none` models the panic when either address fails to decode. -/
def Actions.new (action : Action) (timestamp : Nat) (ledger : Nat)
    (asset : ScVal) (amount : Int) (source : ScVal) : Option ActionsRow :=
  (decodeAddress asset).bind fun a =>
    (decodeAddress source).bind fun s =>
      some { action := action.tag, timestamp := timestamp, ledger := ledger,
             asset := a, source := s, amount := wrapI64 amount }

/-- Mirrors `Actions::add`: decodes the `(amount, _)` tuple from the event
data, signs the delta by `increase`, reads topics 1 and 2 (an
out-of-bounds index is a panic, modelled as `none`) and builds the row via
`Actions.new`. The ledger timestamp and sequence come from the
ledger-close header, passed in explicitly. -/
def Actions.add (action : Action) (event : PrettyContractEvent)
    (increase : Bool) (timestamp : Nat) (ledger : Nat) : Option ActionsRow :=
  (decodeI128Pair event.data).bind fun p =>
    let delta := if increase then p.1 else -p.1
    (event.topics[1]?).bind fun t1 =>
      (event.topics[2]?).bind fun t2 =>
        Actions.new action timestamp ledger t1 delta t2

/-- The fixed target contract identity (`const CONTRACT`). -/
def CONTRACT : String :=
  "CBP7NO6F7FRDHSOFQBT2L2UWYIZ2PU76JKVRYAQTG3KZSQLYAOKIF2WB"

/-- The body of the `for event in searched_events` loop of `on_close` for a
single event: reads `topics[0]` (a panic when absent), decodes it as a
symbol (a panic on any other tag) and dispatches on the four recognized
action names; any other symbol falls through the if/else chain and
produces no row. `some rows` is the list of rows appended for this event;
`none` models a panic aborting the invocation. -/
def processEvent (timestamp : Nat) (ledger : Nat)
    (event : PrettyContractEvent) : Option (List ActionsRow) :=
  (event.topics[0]?).bind fun t0 =>
    (decodeSymbol t0).bind fun action =>
          if action = "supply_collateral" then
            (Actions.add .Collateral event true timestamp ledger).map (fun r => [r])
          else if action = "withdraw_collateral" then
            (Actions.add .Collateral event false timestamp ledger).map (fun r => [r])
          else if action = "borrow" then
            (Actions.add .Borrow event true timestamp ledger).map (fun r => [r])
          else if action = "repay" then
            (Actions.add .Borrow event false timestamp ledger).map (fun r => [r])
          else
            some []

/-- Sequential processing of the filtered events: each event's rows are
appended to the store (`env.put`) before the next event is handled; a
panic (`none`) aborts the rest of the batch but keeps the rows already
appended, and flags the invocation as failed (`false`). -/
def runEvents (timestamp : Nat) (ledger : Nat) :
    List PrettyContractEvent → List ActionsRow → List ActionsRow × Bool
  | [], store => (store, true)
  | ev :: rest, store =>
      match processEvent timestamp ledger ev with
      | none => (store, false)
      | some rows => runEvents timestamp ledger rest (store ++ rows)

/-- The implicit ledger-close context: header timestamp
(`reader().ledger_timestamp()`), header sequence
(`reader().ledger_sequence()`) and the soroban events of the close. -/
structure LedgerClose where
  timestamp : Nat
  sequence : Nat
  events : List PrettyContractEvent

/-- Mirrors `on_close`: filters the close's events to those whose contract
identity equals `CONTRACT`, then processes them in order against the
store. Returns the final store contents and whether the invocation
completed without a panic. -/
def on_close (lc : LedgerClose) (store : List ActionsRow) :
    List ActionsRow × Bool :=
  runEvents lc.timestamp lc.sequence
    (lc.events.filter (fun e => e.contract == CONTRACT)) store

/-- Mirrors `struct Request { kind: Action, address: Option<String> }`. -/
structure Request where
  kind : Action
  address : Option String

/-- Mirrors `retrieve`: reads the store through equality predicates
(`column_equal_to` on `action`, and on `source` when an address is given)
and concludes with the matching rows. The first component is the store
after the call: the entry point performs reads only, no `env.put`. -/
def retrieve (request : Request) (store : List ActionsRow) :
    List ActionsRow × List ActionsRow :=
  match request.address with
  | some address =>
      (store, store.filter (fun r =>
        r.action == request.kind.tag && r.source == address))
  | none =>
      (store, store.filter (fun r => r.action == request.kind.tag))

/-! Helper lemmas shared by several claims. -/

theorem wrapI64_lower (n : Int) : -2 ^ 63 ≤ wrapI64 n := by
  unfold wrapI64
  have h := Int.emod_nonneg (n + 2 ^ 63) (by norm_num : (2 : Int) ^ 64 ≠ 0)
  omega

theorem wrapI64_upper (n : Int) : wrapI64 n < 2 ^ 63 := by
  unfold wrapI64
  have h := Int.emod_lt_of_pos (n + 2 ^ 63) (by norm_num : (0 : Int) < 2 ^ 64)
  have h2 : (2 : Int) ^ 64 = 2 ^ 63 + 2 ^ 63 := by norm_num
  omega

theorem wrapI64_modEq (n : Int) : Int.ModEq (2 ^ 64) (wrapI64 n) n := by
  have h : Int.ModEq (2 ^ 64) ((n + 2 ^ 63) % 2 ^ 64) (n + 2 ^ 63) :=
    Int.emod_emod_of_dvd (n + 2 ^ 63) dvd_rfl
  have h2 := h.sub_right (2 ^ 63)
  rw [add_sub_cancel_right] at h2
  exact h2

theorem wrapI64_eq_self (n : Int) (h1 : -2 ^ 63 ≤ n) (h2 : n < 2 ^ 63) :
    wrapI64 n = n := by
  unfold wrapI64
  have h3 : (n + 2 ^ 63) % 2 ^ 64 = n + 2 ^ 63 := by
    apply Int.emod_eq_of_lt (by omega)
    have h4 : (2 : Int) ^ 64 = 2 ^ 63 + 2 ^ 63 := by norm_num
    omega
  omega

/-- Processing a batch from any starting store appends exactly the rows the
batch produces from the empty store, with the same success flag. -/
theorem runEvents_shift (ts lg : Nat) (evs : List PrettyContractEvent) :
    ∀ store : List ActionsRow,
      runEvents ts lg evs store =
        (store ++ (runEvents ts lg evs []).1, (runEvents ts lg evs []).2) := by
  induction evs with
  | nil => intro store; simp [runEvents]
  | cons ev rest ih =>
      intro store
      cases h : processEvent ts lg ev with
      | none => simp [runEvents, h]
      | some rows =>
          simp only [runEvents, h, List.nil_append]
          rw [ih (store ++ rows), ih rows]
          simp [List.append_assoc]

/-- Characterization of a successful `Actions.new`. -/
theorem new_eq_some (act : Action) (ts lg : Nat) (asset : ScVal) (amt : Int)
    (src : ScVal) (row : ActionsRow) :
    Actions.new act ts lg asset amt src = some row ↔
      ∃ a s, decodeAddress asset = some a ∧ decodeAddress src = some s ∧
        row = { action := act.tag, timestamp := ts, ledger := lg,
                asset := a, source := s, amount := wrapI64 amt } := by
  unfold Actions.new
  rcases decodeAddress asset with _ | a <;> rcases decodeAddress src with _ | s <;>
    simp [eq_comm]

/-- Characterization of a successful `Actions.add`. -/
theorem add_eq_some (act : Action) (ev : PrettyContractEvent) (inc : Bool)
    (ts lg : Nat) (row : ActionsRow) :
    Actions.add act ev inc ts lg = some row ↔
      ∃ amt w t1 t2 a s,
        decodeI128Pair ev.data = some (amt, w) ∧
        ev.topics[1]? = some t1 ∧ ev.topics[2]? = some t2 ∧
        decodeAddress t1 = some a ∧ decodeAddress t2 = some s ∧
        row = { action := act.tag, timestamp := ts, ledger := lg,
                asset := a, source := s,
                amount := wrapI64 (if inc then amt else -amt) } := by
  unfold Actions.add
  rcases hd : decodeI128Pair ev.data with _ | p
  · simp [hd]
  rcases h1 : ev.topics[1]? with _ | t1
  · simp [hd, h1]
  rcases h2 : ev.topics[2]? with _ | t2
  · simp [hd, h1, h2]
  obtain ⟨amt, w⟩ := p
  simp [hd, h1, h2, new_eq_some]

/-- A successful single-event step appends either nothing (unrecognized
symbol) or exactly one row built by `Actions.add` for one of the four
dispatch branches. -/
theorem processEvent_cases (ts lg : Nat) (ev : PrettyContractEvent)
    (rows : List ActionsRow) (h : processEvent ts lg ev = some rows) :
    rows = [] ∨
      ∃ act inc row, Actions.add act ev inc ts lg = some row ∧ rows = [row] := by
  unfold processEvent at h
  rcases h0 : ev.topics[0]? with _ | t0 <;> rw [h0] at h
  · simp at h
  simp only [Option.some_bind] at h
  rcases hs : decodeSymbol t0 with _ | sym <;> rw [hs] at h
  · simp at h
  simp only [Option.some_bind] at h
  split_ifs at h
  · rcases ha : Actions.add Action.Collateral ev true ts lg with _ | row <;>
      rw [ha] at h <;> simp at h
    exact Or.inr ⟨_, _, row, ha, h.symm⟩
  · rcases ha : Actions.add Action.Collateral ev false ts lg with _ | row <;>
      rw [ha] at h <;> simp at h
    exact Or.inr ⟨_, _, row, ha, h.symm⟩
  · rcases ha : Actions.add Action.Borrow ev true ts lg with _ | row <;>
      rw [ha] at h <;> simp at h
    exact Or.inr ⟨_, _, row, ha, h.symm⟩
  · rcases ha : Actions.add Action.Borrow ev false ts lg with _ | row <;>
      rw [ha] at h <;> simp at h
    exact Or.inr ⟨_, _, row, ha, h.symm⟩
  · simp at h
    exact Or.inl h

/-- Every row produced by a single event carries the header timestamp and
ledger sequence. -/
theorem processEvent_header (ts lg : Nat) (ev : PrettyContractEvent)
    (rows : List ActionsRow) (h : processEvent ts lg ev = some rows) :
    ∀ r ∈ rows, r.timestamp = ts ∧ r.ledger = lg := by
  intro r hr
  rcases processEvent_cases ts lg ev rows h with rfl | ⟨act, inc, row, ha, rfl⟩
  · simp at hr
  · simp at hr
    subst hr
    rcases (add_eq_some act ev inc ts lg r).1 ha with
      ⟨amt, w, t1, t2, a, s, _, _, _, _, _, hrow⟩
    rw [hrow]
    exact ⟨rfl, rfl⟩

/-- Step lemma: a target-contract event whose processing succeeds appends
its rows and processing continues with the rest of the close. -/
theorem onClose_cons_target_some (ts lg : Nat) (ev : PrettyContractEvent)
    (rest : List PrettyContractEvent) (store : List ActionsRow)
    (rows : List ActionsRow) (hc : ev.contract = CONTRACT)
    (hp : processEvent ts lg ev = some rows) :
    on_close ⟨ts, lg, ev :: rest⟩ store =
      on_close ⟨ts, lg, rest⟩ (store ++ rows) := by
  simp [on_close, List.filter_cons, hc, runEvents, hp]

/-- Step lemma: a target-contract event whose processing panics aborts the
invocation, keeping the rows already appended. -/
theorem onClose_cons_target_none (ts lg : Nat) (ev : PrettyContractEvent)
    (rest : List PrettyContractEvent) (store : List ActionsRow)
    (hc : ev.contract = CONTRACT) (hp : processEvent ts lg ev = none) :
    on_close ⟨ts, lg, ev :: rest⟩ store = (store, false) := by
  simp [on_close, List.filter_cons, hc, runEvents, hp]

/-- Step lemma: an event of a different contract is dropped by the filter. -/
theorem onClose_cons_other (ts lg : Nat) (ev : PrettyContractEvent)
    (rest : List PrettyContractEvent) (store : List ActionsRow)
    (hc : ev.contract ≠ CONTRACT) :
    on_close ⟨ts, lg, ev :: rest⟩ store = on_close ⟨ts, lg, rest⟩ store := by
  simp [on_close, List.filter_cons, hc]

/-- Recognized symbols select the dispatch branch given by the table. -/
theorem processEvent_recognized (ts lg : Nat) (ev : PrettyContractEvent)
    (sym : String) (act : Action) (inc : Bool)
    (htab : (sym, act, inc) = ("supply_collateral", Action.Collateral, true) ∨
            (sym, act, inc) = ("withdraw_collateral", Action.Collateral, false) ∨
            (sym, act, inc) = ("borrow", Action.Borrow, true) ∨
            (sym, act, inc) = ("repay", Action.Borrow, false))
    (h0 : ev.topics[0]? = some (ScVal.symbol sym)) :
    processEvent ts lg ev = (Actions.add act ev inc ts lg).map (fun r => [r]) := by
  unfold processEvent
  rw [h0]
  simp only [Option.some_bind, decodeSymbol]
  rcases htab with htab | htab | htab | htab <;>
    (obtain ⟨rfl, rfl, rfl⟩ : _ ∧ _ ∧ _ := by
      simpa [Prod.ext_iff] using htab) <;> simp

/-- Claim C1: for every target-contract event whose `topic[0]` symbol is one
of the four recognized symbols, `on_close` appends a row whose action tag
and amount sign follow the dispatch table: "supply_collateral" yields
`Collateral` with `+amount`, "withdraw_collateral" yields `Collateral` with
`-amount`, "borrow" yields `Borrow` with `+amount`, "repay" yields `Borrow`
with `-amount`, where `amount` is the decoded first element of the data
tuple; the increase rows are positive and the decrease rows negative for
the same unsigned magnitude. -/
theorem onClose_dispatch_table
    (sym : String) (act : Action) (inc : Bool)
    (htab : (sym, act, inc) = ("supply_collateral", Action.Collateral, true) ∨
            (sym, act, inc) = ("withdraw_collateral", Action.Collateral, false) ∨
            (sym, act, inc) = ("borrow", Action.Borrow, true) ∨
            (sym, act, inc) = ("repay", Action.Borrow, false))
    (ev : PrettyContractEvent) (rest : List PrettyContractEvent)
    (store : List ActionsRow) (ts lg : Nat) (a s : String) (amt w : Int)
    (hc : ev.contract = CONTRACT)
    (h0 : ev.topics[0]? = some (ScVal.symbol sym))
    (h1 : ev.topics[1]? = some (ScVal.address a))
    (h2 : ev.topics[2]? = some (ScVal.address s))
    (hd : ev.data = ScVal.vec [ScVal.i128 amt, ScVal.i128 w])
    (hpos : 0 < amt) (hlt : amt < 2 ^ 63) :
    on_close ⟨ts, lg, ev :: rest⟩ store =
      on_close ⟨ts, lg, rest⟩
        (store ++ [{ action := act.tag, timestamp := ts, ledger := lg,
                     asset := a, source := s,
                     amount := if inc then amt else -amt }]) ∧
    (inc = true → 0 < (if inc then amt else -amt)) ∧
    (inc = false → (if inc then amt else -amt) < 0) := by
  have h63 : (0 : Int) < 2 ^ 63 := by positivity
  have hdp : decodeI128Pair ev.data = some (amt, w) := by rw [hd]; rfl
  have hwrap : wrapI64 (if inc then amt else -amt) = (if inc then amt else -amt) := by
    cases inc
    · simp only [Bool.false_eq_true, if_false]
      exact wrapI64_eq_self _ (by linarith) (by linarith)
    · simp only [if_true]
      exact wrapI64_eq_self _ (by linarith) hlt
  have hadd : Actions.add act ev inc ts lg =
      some { action := act.tag, timestamp := ts, ledger := lg, asset := a,
             source := s, amount := if inc then amt else -amt } := by
    rw [add_eq_some]
    exact ⟨amt, w, _, _, a, s, hdp, h1, h2, rfl, rfl, by rw [hwrap]⟩
  have hpe : processEvent ts lg ev =
      some [{ action := act.tag, timestamp := ts, ledger := lg, asset := a,
              source := s, amount := if inc then amt else -amt }] := by
    rw [processEvent_recognized ts lg ev sym act inc htab h0, hadd]
    rfl
  refine ⟨onClose_cons_target_some ts lg ev rest store _ hc hpe, ?_, ?_⟩
  · intro hi; simp [hi]; exact hpos
  · intro hi; simp [hi]; linarith

/-- Concrete supply event mirroring the reference test's deposit: magnitude
1,000,000,000 with an unused second tuple element of 500,000,000. -/
def depositEvent : PrettyContractEvent :=
  { contract := CONTRACT,
    topics := [ScVal.symbol "supply_collateral",
               ScVal.address "ASSET8", ScVal.address "SOURCE1"],
    data := ScVal.vec [ScVal.i128 1000000000, ScVal.i128 500000000] }

/-- Concrete withdraw event mirroring the reference test's withdrawal of the
same magnitude. -/
def withdrawEvent : PrettyContractEvent :=
  { contract := CONTRACT,
    topics := [ScVal.symbol "withdraw_collateral",
               ScVal.address "ASSET8", ScVal.address "SOURCE1"],
    data := ScVal.vec [ScVal.i128 1000000000, ScVal.i128 500000000] }

/-- The row the deposit event records. -/
def rowA : ActionsRow :=
  { action := 1, timestamp := 4, ledger := 2000,
    asset := "ASSET8", source := "SOURCE1", amount := 1000000000 }

/-- Witness for C1 at the supply branch of the dispatch table. -/
theorem onClose_dispatch_table_witness :
    on_close ⟨4, 2000, [depositEvent]⟩ [] =
      on_close ⟨4, 2000, []⟩
        ([] ++ [{ action := Action.Collateral.tag, timestamp := 4, ledger := 2000,
                  asset := "ASSET8", source := "SOURCE1",
                  amount := if true then 1000000000 else -1000000000 }]) :=
  (onClose_dispatch_table "supply_collateral" Action.Collateral true (Or.inl rfl)
    depositEvent [] [] 4 2000 "ASSET8" "SOURCE1" 1000000000 500000000
    rfl rfl rfl rfl rfl (by norm_num) (by norm_num)).1

/-- Concrete malformed event: a recognized symbol but only one topic, so the
Rust code's `event.topics[1]` access in `Actions::add` is out of bounds. -/
def shortTopicsEvent : PrettyContractEvent :=
  { contract := CONTRACT,
    topics := [ScVal.symbol "supply_collateral"],
    data := ScVal.vec [ScVal.i128 5, ScVal.i128 6] }

/-- Claim C2 counterexample: an event of the target contract with fewer than
3 topics need not be skipped silently — when its `topic[0]` is a recognized
symbol, `on_close` aborts the invocation (the out-of-bounds `topics[1]`
index panics) and appends no row, refuting the no-abort part of the claim
for the fewer-than-3-topics case. -/
theorem onClose_short_topics_aborts :
    shortTopicsEvent.contract = CONTRACT ∧
    shortTopicsEvent.topics.length < 3 ∧
    on_close ⟨10, 20, [shortTopicsEvent]⟩ [] = ([], false) := by
  exact ⟨rfl, by decide, by decide⟩

/-- Claim C2 (amended): for every target-contract event that has at least one
topic and whose `topic[0]` is a symbol other than the four recognized ones,
`on_close` appends no row for that event and does not abort: processing
continues exactly as if the event were absent. -/
theorem onClose_skips_unrecognized
    (ts lg : Nat) (ev : PrettyContractEvent) (rest : List PrettyContractEvent)
    (store : List ActionsRow) (sym : String)
    (hc : ev.contract = CONTRACT)
    (h0 : ev.topics[0]? = some (ScVal.symbol sym))
    (hs : sym ≠ "supply_collateral") (hw : sym ≠ "withdraw_collateral")
    (hb : sym ≠ "borrow") (hr : sym ≠ "repay") :
    on_close ⟨ts, lg, ev :: rest⟩ store = on_close ⟨ts, lg, rest⟩ store := by
  have hpe : processEvent ts lg ev = some [] := by
    unfold processEvent
    rw [h0]
    simp [decodeSymbol, hs, hw, hb, hr]
  simpa using onClose_cons_target_some ts lg ev rest store [] hc hpe

/-- Concrete unrecognized event from the spec's example: symbol "flash_loan"
with a single topic. -/
def flashEvent : PrettyContractEvent :=
  { contract := CONTRACT,
    topics := [ScVal.symbol "flash_loan"],
    data := ScVal.other }

/-- Witness for the amended C2 at the "flash_loan" event. -/
theorem onClose_skips_unrecognized_witness :
    on_close ⟨1, 2, [flashEvent]⟩ [] = on_close ⟨1, 2, []⟩ [] :=
  onClose_skips_unrecognized 1 2 flashEvent [] [] "flash_loan" rfl rfl
    (by decide) (by decide) (by decide) (by decide)

/-- Claim C3 counterexample: starting from the 1-row store produced by the
supply event, a later ledger close containing only the single withdraw event
of the same magnitude leaves the store with 2 rows, not 3: one withdrawal
event records exactly one row. -/
theorem onClose_single_withdraw_two_rows :
    (on_close ⟨4, 2000, [depositEvent]⟩ []).1.length = 1 ∧
    (on_close ⟨5, 2010, [withdrawEvent]⟩
        (on_close ⟨4, 2000, [depositEvent]⟩ []).1).1.length = 2 ∧
    (on_close ⟨5, 2010, [withdrawEvent]⟩
        (on_close ⟨4, 2000, [depositEvent]⟩ []).1).1.length ≠ 3 := by
  exact ⟨by decide, by decide, by decide⟩

/-- Claim C3 (amended): the later ledger close of the reference test carries
both the accumulated supply event and the withdraw event, so processing it
on the 1-row store yields 3 rows total; each recognized event appends
exactly one row, the withdrawal itself contributing one. -/
theorem onClose_test_scenario_three_rows :
    (on_close ⟨4, 2000, [depositEvent]⟩ []).1.length = 1 ∧
    (on_close ⟨5, 2010, [depositEvent, withdrawEvent]⟩
        (on_close ⟨4, 2000, [depositEvent]⟩ []).1).1.length = 3 ∧
    (on_close ⟨5, 2010, [withdrawEvent]⟩ []).1.length = 1 := by
  exact ⟨by decide, by decide, by decide⟩

/-- Claim C4: `on_close` processes exactly the ordered subsequence of events
whose contract field equals the fixed target identity: the selected batch
is a sublist (order-preserving subsequence) of the close's events,
membership in it is exact equality with `CONTRACT`, `on_close` is the
sequential run over precisely that batch, and an event of any other
contract placed anywhere in the close produces zero store appends. -/
theorem onClose_contract_filter
    (ts lg : Nat) (e : PrettyContractEvent)
    (xs ys : List PrettyContractEvent) (store : List ActionsRow)
    (he : e.contract ≠ CONTRACT) :
    (∀ evs : List PrettyContractEvent,
      (evs.filter (fun x => x.contract == CONTRACT)).Sublist evs) ∧
    (∀ (evs : List PrettyContractEvent) (x : PrettyContractEvent),
      x ∈ evs.filter (fun x => x.contract == CONTRACT) ↔
        x ∈ evs ∧ x.contract = CONTRACT) ∧
    (∀ (lc : LedgerClose) (st : List ActionsRow),
      on_close lc st =
        runEvents lc.timestamp lc.sequence
          (lc.events.filter (fun x => x.contract == CONTRACT)) st) ∧
    on_close ⟨ts, lg, xs ++ e :: ys⟩ store = on_close ⟨ts, lg, xs ++ ys⟩ store := by
  refine ⟨fun evs => List.filter_sublist evs, ?_, fun lc st => rfl, ?_⟩
  · intro evs x
    simp [List.mem_filter]
  · have hf : (xs ++ e :: ys).filter (fun x => x.contract == CONTRACT) =
        (xs ++ ys).filter (fun x => x.contract == CONTRACT) := by
      simp [List.filter_append, List.filter_cons, he]
    simp [on_close, hf]

/-- Concrete event of a different contract. -/
def otherEvent : PrettyContractEvent :=
  { contract := "GOTHERCONTRACT",
    topics := [ScVal.symbol "supply_collateral",
               ScVal.address "ASSET8", ScVal.address "SOURCE1"],
    data := ScVal.vec [ScVal.i128 7, ScVal.i128 8] }

/-- Witness for C4: a foreign-contract event appends nothing. -/
theorem onClose_contract_filter_witness :
    on_close ⟨7, 8, [] ++ otherEvent :: []⟩ [] = on_close ⟨7, 8, [] ++ []⟩ [] :=
  (onClose_contract_filter 7 8 otherEvent [] [] [] (by decide)).2.2.2

/-- Claim C5: `retrieve` returns exactly the stored rows whose action column
equals the request's kind tag, further restricted to exact whole-string
equality on the source column when an address is present, with no source
predicate otherwise; the empty result is a successful outcome. -/
theorem retrieve_query_spec (req : Request) (store : List ActionsRow) :
    (∀ addr, req.address = some addr →
      ∀ r, r ∈ (retrieve req store).2 ↔
        r ∈ store ∧ r.action = req.kind.tag ∧ r.source = addr) ∧
    (req.address = none →
      ∀ r, r ∈ (retrieve req store).2 ↔ r ∈ store ∧ r.action = req.kind.tag) ∧
    (retrieve req []).2 = [] := by
  refine ⟨?_, ?_, ?_⟩
  · intro addr ha r
    simp [retrieve, ha, List.mem_filter, and_assoc]
  · intro ha r
    simp [retrieve, ha, List.mem_filter]
  · rcases h : req.address with _ | addr <;> simp [retrieve, h]

/-- Witness for C5 at a one-row store with a matching source filter. -/
theorem retrieve_query_spec_witness :
    rowA ∈ (retrieve ⟨Action.Collateral, some "SOURCE1"⟩ [rowA]).2 ↔
      rowA ∈ [rowA] ∧ rowA.action = Action.Collateral.tag ∧
        rowA.source = "SOURCE1" :=
  (retrieve_query_spec ⟨Action.Collateral, some "SOURCE1"⟩ [rowA]).1 "SOURCE1"
    rfl rowA

/-- Claim C6: the persisted amount is the two's-complement truncation of the
signed 128-bit delta to 64 bits: the stored value is congruent to the delta
modulo 2^64, lies in the signed 64-bit range, and for deltas outside that
range it differs from the delta (precision loss) while the row is still
recorded rather than an error being raised. -/
theorem row_amount_truncation (act : Action) (ts lg : Nat)
    (assetV srcV : ScVal) (amt : Int) (a s : String)
    (ha : decodeAddress assetV = some a) (hs : decodeAddress srcV = some s) :
    Actions.new act ts lg assetV amt srcV =
      some { action := act.tag, timestamp := ts, ledger := lg,
             asset := a, source := s, amount := wrapI64 amt } ∧
    Int.ModEq (2 ^ 64) (wrapI64 amt) amt ∧
    -2 ^ 63 ≤ wrapI64 amt ∧ wrapI64 amt < 2 ^ 63 ∧
    ((amt < -2 ^ 63 ∨ 2 ^ 63 ≤ amt) → wrapI64 amt ≠ amt) := by
  refine ⟨?_, wrapI64_modEq amt, wrapI64_lower amt, wrapI64_upper amt, ?_⟩
  · unfold Actions.new
    rw [ha, hs]
    rfl
  · intro hout heq
    have hl := wrapI64_lower amt
    have hu := wrapI64_upper amt
    rw [heq] at hl hu
    rcases hout with h | h <;> linarith

/-- Witness for C6 at the out-of-range delta 2^63. -/
theorem row_amount_truncation_witness : wrapI64 (2 ^ 63) ≠ 2 ^ 63 :=
  (row_amount_truncation Action.Borrow 1 2 (ScVal.address "A")
    (ScVal.address "B") (2 ^ 63) "A" "B" rfl rfl).2.2.2.2 (Or.inr le_rfl)

/-- Claim C7: replaying the same ledger close is not idempotent: if a run
appended the rows `d`, running `on_close` again on the identical batch
appends a second copy of `d`, and every row recorded by the close then
occurs at least twice in the store — there is no deduplication key. -/
theorem onClose_not_idempotent (lc : LedgerClose) (store d : List ActionsRow)
    (h : on_close lc store = (store ++ d, true)) :
    on_close lc (store ++ d) = (store ++ d ++ d, true) ∧
    ∀ r ∈ d, 2 ≤ (store ++ d ++ d).count r := by
  have hs := runEvents_shift lc.timestamp lc.sequence
    (lc.events.filter (fun e => e.contract == CONTRACT))
  have h1 := hs store
  have h2 := hs (store ++ d)
  unfold on_close at h ⊢
  rw [h1] at h
  injection h with hb hf
  have hd : (runEvents lc.timestamp lc.sequence
      (lc.events.filter (fun e => e.contract == CONTRACT)) []).1 = d :=
    List.append_cancel_left hb
  rw [h2, hd, hf]
  refine ⟨rfl, ?_⟩
  intro r hr
  have hcnt : 0 < d.count r := List.count_pos_iff.mpr hr
  simp [List.count_append]
  omega

/-- Witness for C7: replaying the deposit close duplicates its row. -/
theorem onClose_not_idempotent_witness :
    on_close ⟨4, 2000, [depositEvent]⟩ ([] ++ [rowA]) =
      ([] ++ [rowA] ++ [rowA], true) :=
  (onClose_not_idempotent ⟨4, 2000, [depositEvent]⟩ [] [rowA] (by decide)).1

/-- Claim C8: the `Action` enumeration has exactly the two variants with
stable numeric tags `Borrow = 0` and `Collateral = 1`; that tag is the
value written to the row's `action` column by the recorder, and the query
predicate compares the `action` column against the request kind's tag. -/
theorem action_tags :
    Action.tag Action.Borrow = 0 ∧ Action.tag Action.Collateral = 1 ∧
    (∀ a : Action, a = Action.Borrow ∨ a = Action.Collateral) ∧
    (∀ (act : Action) (ts lg : Nat) (assetV srcV : ScVal) (amt : Int)
        (row : ActionsRow),
      Actions.new act ts lg assetV amt srcV = some row →
        row.action = act.tag) ∧
    (∀ (req : Request) (store : List ActionsRow) (r : ActionsRow),
      r ∈ (retrieve req store).2 → r.action = req.kind.tag) := by
  refine ⟨rfl, rfl, ?_, ?_, ?_⟩
  · intro a; cases a; exacts [Or.inl rfl, Or.inr rfl]
  · intro act ts lg assetV srcV amt row h
    rcases (new_eq_some act ts lg assetV amt srcV row).1 h with ⟨a, s, _, _, hrow⟩
    rw [hrow]
  · intro req store r hr
    rcases hq : req.address with _ | addr <;>
      simp [retrieve, hq, List.mem_filter] at hr <;> tauto

/-- Witness for C8: the row returned by a collateral query carries tag 1. -/
theorem action_tags_witness :
    rowA.action = Action.tag Action.Collateral :=
  action_tags.2.2.2.2 ⟨Action.Collateral, some "SOURCE1"⟩ [rowA] rowA (by decide)

/-- Rows present after a batch run were either already in the store or carry
the header timestamp and ledger sequence of the close being processed. -/
theorem runEvents_header (ts lg : Nat) (evs : List PrettyContractEvent) :
    ∀ (store : List ActionsRow) (r : ActionsRow),
      r ∈ (runEvents ts lg evs store).1 →
        r ∈ store ∨ (r.timestamp = ts ∧ r.ledger = lg) := by
  induction evs with
  | nil =>
      intro store r hr
      exact Or.inl (by simpa [runEvents] using hr)
  | cons ev rest ih =>
      intro store r hr
      cases hp : processEvent ts lg ev with
      | none =>
          simp only [runEvents, hp] at hr
          exact Or.inl hr
      | some rows =>
          simp only [runEvents, hp] at hr
          rcases ih (store ++ rows) r hr with h | h
          · rcases List.mem_append.1 h with h' | h'
            · exact Or.inl h'
            · exact Or.inr (processEvent_header ts lg ev rows hp r h')
          · exact Or.inr h

/-- Claim C9: every row appended during a single `on_close` invocation
carries the ledger-close header's timestamp and sequence, so all rows of
one close share the same `(timestamp, ledger)` pair; neither value comes
from any per-event payload. -/
theorem onClose_uniform_header (lc : LedgerClose) (store : List ActionsRow)
    (r : ActionsRow) (hr : r ∈ (on_close lc store).1) :
    r ∈ store ∨ (r.timestamp = lc.timestamp ∧ r.ledger = lc.sequence) :=
  runEvents_header lc.timestamp lc.sequence _ store r hr

/-- Witness for C9: the deposit row carries the close's header values. -/
theorem onClose_uniform_header_witness :
    rowA ∈ ([] : List ActionsRow) ∨ (rowA.timestamp = 4 ∧ rowA.ledger = 2000) :=
  onClose_uniform_header ⟨4, 2000, [depositEvent]⟩ [] rowA (by decide)

/-- Claim C10: the `retrieve` entry point never modifies the actions table:
for every request the store after the query equals the store before it. -/
theorem retrieve_frame (req : Request) (store : List ActionsRow) :
    (retrieve req store).1 = store := by
  rcases h : req.address with _ | addr <;> simp [retrieve, h]

end BlendYbx
